import Mathlib

/-!
Verification of the Doom-raycast-engine core (src/Python/doom.py) against its
natural-language specification.

Shallow embedding conventions:
* Python floats are modelled as rationals (`ℚ`); decimal literals such as
  `1.414` and `0.8` are taken at their decimal value.
* Python `int(q)` (truncation toward zero) is `pyInt`.
* Python list indexing `l[i]` (negative indices wrap, out-of-range raises
  `IndexError`) is `pyGet`; a raised exception is modelled by propagating
  `none` through an `Option`-returning embedding.
* `float('inf')` appearing in the DDA side distances is modelled by `Option ℚ`
  with `none` standing for `+inf` (no `NaN` arises on the guarded paths, see
  the comments at `optMul`).
* Comparisons of the form `math.sqrt(s) < c` with `c ≥ 0` are modelled by the
  equivalent `s < c^2`.
-/

namespace Doom

/-- Python `int(q)` for a float/rational `q`: truncation toward zero. -/
def pyInt (q : ℚ) : Int := if q < 0 then ⌈q⌉ else ⌊q⌋

/-- Python list indexing `l[i]`: negative indices count from the end,
out-of-range indices raise `IndexError` (modelled as `none`). -/
def pyGet {α : Type} (l : List α) (i : Int) : Option α :=
  if 0 ≤ i then l.get? i.toNat
  else if 0 ≤ (l.length : Int) + i then l.get? ((l.length : Int) + i).toNat
  else none

/-- Python `MAP[y][x]` (doom.py line 201 etc.): row lookup then column lookup,
each with Python indexing semantics. -/
def pyGet2 (m : List (List Int)) (y x : Int) : Option Int :=
  match pyGet m y with
  | none => none
  | some row => pyGet row x

/-- Total map access used only where the source has already checked
`0 <= x < MAP_WIDTH and 0 <= y < MAP_HEIGHT` (so it agrees with Python). -/
def mapAt (m : List (List Int)) (y x : Int) : Int :=
  (m.getD y.toNat []).getD x.toNat 0

/-- `MAP_WIDTH = len(MAP[0])` (doom.py line 173). -/
def mapW (m : List (List Int)) : Int := (m.headD []).length

/-- `MAP_HEIGHT = len(MAP)` (doom.py line 174). -/
def mapH (m : List (List Int)) : Int := m.length

/-- `TILE_SIZE = 64` (doom.py line 55). -/
def TILE_SIZE : ℚ := 64

/-- World coordinate to grid cell, as the pathfinder computes it
(doom.py line 197: `int(start_x / TILE_SIZE)`). -/
def worldToGrid (w : ℚ) : Int := pyInt (w / TILE_SIZE)

/-- The game map `MAP` of doom.py (lines 138-171): 32 rows of 32 tile codes,
`0` = empty, `1` = wall. -/
def MAP : List (List Int) := [
 [1,1,1,1,1,1,1,1,1,1,1,1,1,1,1,1,1,1,1,1,1,1,1,1,1,1,1,1,1,1,1,1],
 [1,0,0,0,0,0,0,0,0,0,0,0,0,0,0,0,0,0,0,0,0,0,0,0,0,0,0,0,0,0,0,1],
 [1,0,1,1,1,0,0,0,0,0,0,0,0,0,0,0,0,0,0,0,0,0,0,0,0,1,1,1,1,0,0,1],
 [1,0,1,0,0,0,0,0,0,0,0,0,0,0,0,0,0,0,0,0,0,0,0,0,0,0,0,0,1,0,0,1],
 [1,0,1,0,0,0,0,0,0,0,0,0,0,0,0,0,0,0,0,0,0,0,0,0,0,0,0,0,1,0,0,1],
 [1,0,1,0,0,0,0,0,0,0,0,0,0,0,0,0,0,0,0,0,0,0,0,0,0,0,0,0,1,0,0,1],
 [1,0,0,0,0,0,0,0,1,1,1,1,0,0,0,0,0,0,0,1,1,1,1,0,0,0,0,0,0,0,0,1],
 [1,0,0,0,0,0,0,0,1,0,0,1,0,0,0,0,0,0,0,1,0,0,1,0,0,0,0,0,0,0,0,1],
 [1,0,0,0,0,0,0,0,1,0,0,1,0,0,0,0,0,0,0,1,0,0,1,0,0,0,0,0,0,0,0,1],
 [1,0,0,0,0,0,0,0,1,1,1,1,0,0,0,0,0,0,0,1,1,1,1,0,0,0,0,0,0,0,0,1],
 [1,0,0,0,0,0,0,0,0,0,0,0,0,0,0,0,0,0,0,0,0,0,0,0,0,0,0,0,0,0,0,1],
 [1,0,0,0,0,0,0,0,0,0,0,0,0,0,1,1,1,0,0,0,0,0,0,0,0,0,0,0,0,0,0,1],
 [1,0,0,0,0,0,0,0,0,0,0,0,0,0,1,0,0,0,0,0,0,0,0,0,0,0,0,0,0,0,0,1],
 [1,0,0,1,1,1,1,0,0,0,0,0,0,0,1,0,0,0,0,0,0,0,0,0,1,1,1,1,0,0,0,1],
 [1,0,0,1,0,0,1,0,0,0,0,0,0,0,1,0,0,0,0,0,0,0,0,0,1,0,0,1,0,0,0,1],
 [1,0,0,1,0,0,1,0,0,0,0,0,0,0,0,0,0,0,0,0,0,0,0,0,1,0,0,1,0,0,0,1],
 [1,0,0,1,0,0,1,0,0,0,0,0,0,0,0,0,0,0,0,0,0,0,0,0,1,0,0,1,0,0,0,1],
 [1,0,0,1,1,1,1,0,0,0,0,0,0,0,0,0,0,0,0,0,0,0,0,0,1,1,1,1,0,0,0,1],
 [1,0,0,0,0,0,0,0,0,0,0,0,0,0,0,0,0,0,0,0,0,0,0,0,0,0,0,0,0,0,0,1],
 [1,0,0,0,0,0,0,0,0,0,0,0,0,0,0,0,0,0,0,0,0,0,0,0,0,0,0,0,0,0,0,1],
 [1,0,0,0,0,0,0,0,0,1,1,1,1,1,1,1,1,1,1,1,1,0,0,0,0,0,0,0,0,0,0,1],
 [1,0,0,0,0,0,0,0,0,1,0,0,0,0,0,0,0,0,0,0,1,0,0,0,0,0,0,0,0,0,0,1],
 [1,0,0,0,0,0,0,0,0,1,0,0,0,0,0,0,0,0,0,0,1,0,0,0,0,0,0,0,0,0,0,1],
 [1,0,0,0,0,0,0,0,0,1,0,0,0,0,0,0,0,0,0,0,1,0,0,0,0,0,0,0,0,0,0,1],
 [1,0,0,0,0,0,0,0,0,1,0,0,0,0,0,0,0,0,0,0,1,0,0,0,0,0,0,0,0,0,0,1],
 [1,0,0,0,0,0,0,0,0,1,0,0,0,0,0,0,0,0,0,0,1,0,0,0,0,0,0,0,0,0,0,1],
 [1,0,0,0,0,1,1,1,0,1,0,0,0,0,0,0,0,0,0,0,1,0,1,1,1,0,0,0,0,0,0,1],
 [1,0,0,0,0,1,0,1,0,1,1,1,1,1,1,1,1,1,1,1,1,0,1,0,1,0,0,0,0,0,0,1],
 [1,0,0,0,0,1,1,1,0,0,0,0,0,0,0,0,0,0,0,0,0,0,1,1,1,0,0,0,0,0,0,1],
 [1,0,0,0,0,0,0,0,0,0,0,0,0,0,0,0,0,0,0,0,0,0,0,0,0,0,0,0,0,0,0,1],
 [1,0,0,0,0,0,0,0,0,0,0,0,0,0,0,0,0,0,0,0,0,0,0,0,0,0,0,0,0,0,0,1],
 [1,1,1,1,1,1,1,1,1,1,1,1,1,1,1,1,1,1,1,1,1,1,1,1,1,1,1,1,1,1,1,1]
]

/-! ## A* pathfinding (doom.py lines 177-294, identical in astar.py) -/

/-- `PathNode` of doom.py lines 177-192: grid cell, optional parent link and
the `g`/`h`/`f` costs.  `parent=None` is the `root` constructor. -/
inductive PathNode : Type where
  | root (x y : Int) (g h f : ℚ)
  | child (x y : Int) (parent : PathNode) (g h f : ℚ)

def PathNode.x : PathNode → Int
  | .root x _ _ _ _ => x
  | .child x _ _ _ _ _ => x

def PathNode.y : PathNode → Int
  | .root _ y _ _ _ => y
  | .child _ y _ _ _ _ => y

def PathNode.g : PathNode → ℚ
  | .root _ _ g _ _ => g
  | .child _ _ _ g _ _ => g

def PathNode.f : PathNode → ℚ
  | .root _ _ _ _ f => f
  | .child _ _ _ _ _ f => f

/-- `PathNode.__lt__` (doom.py line 186-188): ordering by `f` only. -/
def nodeLT (a b : PathNode) : Bool := a.f < b.f

/-- Default node used by the total list accessor `getN`; the accessor is only
applied at indices proved to be in range. -/
def dummyNode : PathNode := .root 0 0 0 0 0

def getN (l : List PathNode) (i : Nat) : PathNode := l.getD i dummyNode

/-! `heapq` as used by the source: Python's binary min-heap.  The sift loops
are given an explicit fuel argument; with the fuel the callers supply
(`pos` for `_siftdown`, `len(heap)` for `_siftup`) the fuel never runs out,
and at fuel 0 the returned value coincides with the loop-exit value, so the
embedding is extensionally Python's algorithm. -/

/-- `heapq._siftdown(heap, startpos, pos)` with `newitem = heap[pos]` held in
`item`.  Walks from `pos` toward the root, shifting larger parents down. -/
def siftdownGo (item : PathNode) (startpos : Nat) :
    Nat → List PathNode → Nat → List PathNode
  | 0, heap, pos => heap.set pos item
  | fuel + 1, heap, pos =>
    if startpos < pos then
      let parentpos := (pos - 1) / 2
      let parent := getN heap parentpos
      if nodeLT item parent then
        siftdownGo item startpos fuel (heap.set pos parent) parentpos
      else heap.set pos item
    else heap.set pos item

def siftdown (item : PathNode) (heap : List PathNode) (startpos pos : Nat) :
    List PathNode :=
  siftdownGo item startpos pos heap pos

/-- The descend-to-leaf loop of `heapq._siftup`; returns the modified heap and
the final position of the hole. -/
def siftupGo (item : PathNode) :
    Nat → List PathNode → Nat → List PathNode × Nat
  | 0, heap, pos => (heap.set pos item, pos)
  | fuel + 1, heap, pos =>
    if 2 * pos + 1 < heap.length then
      let childpos :=
        if 2 * pos + 2 < heap.length ∧
            ¬ nodeLT (getN heap (2 * pos + 1)) (getN heap (2 * pos + 2)) then
          2 * pos + 2
        else 2 * pos + 1
      siftupGo item fuel (heap.set pos (getN heap childpos)) childpos
    else (heap.set pos item, pos)

/-- `heapq._siftup(heap, pos)`: move the hole to a leaf, then sift the item
back down toward the root. -/
def siftup (heap : List PathNode) (pos : Nat) : List PathNode :=
  let item := getN heap pos
  let r := siftupGo item heap.length heap pos
  siftdownGo item pos r.2 r.1 r.2

/-- `heapq.heappush` (doom.py line 229/291). -/
def heappush (heap : List PathNode) (item : PathNode) : List PathNode :=
  siftdownGo item 0 heap.length (heap ++ [item]) heap.length

/-- `heapq.heappop` (doom.py line 238); `none` is the `IndexError` on an empty
heap, which the source never triggers (the loop guard checks emptiness). -/
def heappop (heap : List PathNode) : Option (PathNode × List PathNode) :=
  match heap with
  | [] => none
  | _ :: _ =>
    let lastelt := getN heap (heap.length - 1)
    let rest := heap.take (heap.length - 1)
    if rest.isEmpty then some (lastelt, [])
    else some (getN rest 0, siftup (rest.set 0 lastelt) 0)

/-- Path reconstruction (doom.py lines 243-248) before the final reversal:
walk the parent links, emitting each cell's world-space tile center
`(x*TILE_SIZE + TILE_SIZE/2, y*TILE_SIZE + TILE_SIZE/2)`. -/
def walkPath : PathNode → List (ℚ × ℚ)
  | .root x y _ _ _ => [((x : ℚ) * 64 + 32, (y : ℚ) * 64 + 32)]
  | .child x y p _ _ _ => ((x : ℚ) * 64 + 32, (y : ℚ) * 64 + 32) :: walkPath p

/-- The eight movement directions (doom.py lines 205-214), in source order. -/
def directions : List (Int × Int) :=
  [(0, -1), (1, -1), (1, 0), (1, 1), (0, 1), (-1, 1), (-1, 0), (-1, -1)]

/-- Result of one `a_star_pathfinding` call, instrumented with the number of
`heappush`/`heappop` operations performed (the loop runs exactly one pop per
iteration, so `pops` is also the iteration count). -/
structure AStarResult where
  path : List (ℚ × ℚ)
  pushes : Nat
  pops : Nat
  deriving DecidableEq

/-- The neighbor-expansion `for dx, dy in directions` loop (doom.py lines
255-291) for one popped `cur` node.  Returns the updated open list and push
count; `none` models an uncaught `IndexError` from the unguarded corner-check
lookups `MAP[current.y][new_x]` / `MAP[new_y][current.x]` (line 270). -/
def expandDirs (m : List (List Int)) (W H gx gy : Int) (cur : PathNode)
    (closed : List (Int × Int)) :
    List (Int × Int) → List PathNode → Nat → Option (List PathNode × Nat)
  | [], openl, pushes => some (openl, pushes)
  | (dx, dy) :: rest, openl, pushes =>
    let nx := cur.x + dx
    let ny := cur.y + dy
    if 0 ≤ nx ∧ nx < W ∧ 0 ≤ ny ∧ ny < H ∧ mapAt m ny nx = 0 ∧
        (nx, ny) ∉ closed then
      -- step cost; diagonal steps are corner-checked first
      let push : ℚ → Option (List PathNode × Nat) := fun g =>
        let h : ℚ := ((|nx - gx| + |ny - gy| : Int) : ℚ)
        let nb : PathNode := .child nx ny cur g h (g + h)
        -- `open_node == neighbor and open_node.g <= neighbor.g` scan (284-288)
        if openl.any (fun o => o.x = nx ∧ o.y = ny ∧ o.g ≤ g) then
          expandDirs m W H gx gy cur closed rest openl pushes
        else
          expandDirs m W H gx gy cur closed rest (heappush openl nb)
            (pushes + 1)
      if dx ≠ 0 ∧ dy ≠ 0 then
        match pyGet2 m cur.y nx with
        | none => none
        | some v =>
          if v ≠ 0 then expandDirs m W H gx gy cur closed rest openl pushes
          else
            match pyGet2 m ny cur.x with
            | none => none
            | some w =>
              if w ≠ 0 then expandDirs m W H gx gy cur closed rest openl pushes
              else push (cur.g + 1.414)
      else push (cur.g + 1)
    else expandDirs m W H gx gy cur closed rest openl pushes

/-- The main `while open_list and iterations < max_iterations` loop (doom.py
lines 234-294).  `fuel` is the remaining iteration budget
`max_iterations - iterations`. -/
def aStarLoop (m : List (List Int)) (W H gx gy : Int) :
    Nat → List PathNode → List (Int × Int) → Nat → Nat → Option AStarResult
  | 0, _, _, pushes, pops => some ⟨[], pushes, pops⟩
  | _ + 1, [], _, pushes, pops => some ⟨[], pushes, pops⟩
  | fuel + 1, openl@(_ :: _), closed, pushes, pops =>
    match heappop openl with
    | none => none
    | some (cur, rest) =>
      if cur.x = gx ∧ cur.y = gy then
        some ⟨(walkPath cur).reverse, pushes, pops + 1⟩
      else
        match expandDirs m W H gx gy cur ((cur.x, cur.y) :: closed)
            directions rest pushes with
        | none => none
        | some (openl', pushes') =>
          aStarLoop m W H gx gy fuel openl' ((cur.x, cur.y) :: closed)
            pushes' (pops + 1)

/-- `a_star_pathfinding` (doom.py lines 195-294), instrumented.  The global
`MAP` of the source is the parameter `m`.  `none` models an uncaught
`IndexError` (the initial wall test at line 201 indexes the map without any
bounds check). -/
def a_star_run (m : List (List Int)) (start_x start_y goal_x goal_y : ℚ)
    (max_iterations : Nat) : Option AStarResult :=
  let sgx := worldToGrid start_x
  let sgy := worldToGrid start_y
  let ggx := worldToGrid goal_x
  let ggy := worldToGrid goal_y
  -- `if MAP[start_grid_y][start_grid_x] != 0 or MAP[goal_grid_y][goal_grid_x] != 0`
  match pyGet2 m sgy sgx with
  | none => none
  | some sv =>
    if sv ≠ 0 then some ⟨[], 0, 0⟩
    else
      match pyGet2 m ggy ggx with
      | none => none
      | some gv =>
        if gv ≠ 0 then some ⟨[], 0, 0⟩
        else
          let h0 : ℚ := ((|sgx - ggx| + |sgy - ggy| : Int) : ℚ)
          let start : PathNode := .root sgx sgy 0 h0 h0
          aStarLoop m (mapW m) (mapH m) ggx ggy max_iterations
            (heappush [] start) [] 1 0

/-- The path returned by `a_star_pathfinding`. -/
def a_star_pathfinding (m : List (List Int))
    (start_x start_y goal_x goal_y : ℚ) (max_iterations : Nat) :
    Option (List (ℚ × ℚ)) :=
  (a_star_run m start_x start_y goal_x goal_y max_iterations).map (·.path)

/-! ## Raycaster DDA (cast_rays, doom.py lines 1881-2027) -/

/-- `a < b` on side distances where `none` is `float('inf')`
(IEEE comparisons with infinities, no NaN on the guarded paths). -/
def optLT : Option ℚ → Option ℚ → Bool
  | none, _ => false
  | some _, none => true
  | some a, some b => a < b

/-- Addition of a side distance and a delta distance (`inf` absorbs). -/
def optAdd : Option ℚ → Option ℚ → Option ℚ
  | some a, some b => some (a + b)
  | _, _ => none

/-- `a * d` where `d` may be `inf`.  In the source the multiplier `a` is
always strictly positive when `d` is infinite (it is `map + 1.0 - player_map`
with `map = int(player_map)`, and that branch is taken only for a
non-negative ray direction), so `a * inf = inf` and no NaN arises. -/
def optMul (a : ℚ) : Option ℚ → Option ℚ
  | none => none
  | some d => some (a * d)

/-- The DDA `while not hit and map_bounds_ok` loop (doom.py lines 1927-1943).
Returns `some (some (side, mapX, mapY))` on a wall hit,
`some none` when the march leaves the map without a hit, and `none` when the
fuel runs out (the Python loop has no iteration cap here; any fuel of at
least `mapW m + mapH m + 2` steps is enough for an in-bounds start). -/
def ddaLoop (m : List (List Int)) (deltaX deltaY : Option ℚ)
    (stepX stepY : Int) :
    Nat → Int → Int → Option ℚ → Option ℚ →
    Option (Option (Nat × Int × Int))
  | 0, _, _, _, _ => none
  | fuel + 1, mapX, mapY, sdx, sdy =>
    if optLT sdx sdy then
      let mapX' := mapX + stepX
      if 0 ≤ mapX' ∧ mapX' < mapW m ∧ 0 ≤ mapY ∧ mapY < mapH m then
        if 0 < mapAt m mapY mapX' then some (some (0, mapX', mapY))
        else ddaLoop m deltaX deltaY stepX stepY fuel mapX' mapY
          (optAdd sdx deltaX) sdy
      else some none
    else
      let mapY' := mapY + stepY
      if 0 ≤ mapX ∧ mapX < mapW m ∧ 0 ≤ mapY' ∧ mapY' < mapH m then
        if 0 < mapAt m mapY' mapX then some (some (1, mapX, mapY'))
        else ddaLoop m deltaX deltaY stepX stepY fuel mapX mapY'
          sdx (optAdd sdy deltaY)
      else some none

/-- `1 if ray_dir >= 0 else -1` (doom.py lines 1906-1907). -/
def stepOf (d : ℚ) : Int := if 0 ≤ d then 1 else -1

/-- One ray of `cast_rays` (doom.py lines 1890-1943): DDA set-up and march.
`pmx`/`pmy` are `player.x / TILE_SIZE` / `player.y / TILE_SIZE` as
precomputed at lines 1869-1870; `dirX`/`dirY` is the ray direction vector. -/
def castRayCore (m : List (List Int)) (pmx pmy dirX dirY : ℚ) (fuel : Nat) :
    Option (Option (Nat × Int × Int)) :=
  let mapX := pyInt pmx
  let mapY := pyInt pmy
  let deltaX : Option ℚ := if dirX ≠ 0 then some |1 / dirX| else none
  let deltaY : Option ℚ := if dirY ≠ 0 then some |1 / dirY| else none
  let sdx : Option ℚ :=
    if dirX < 0 then optMul (pmx - mapX) deltaX
    else optMul ((mapX : ℚ) + 1 - pmx) deltaX
  let sdy : Option ℚ :=
    if dirY < 0 then optMul (pmy - mapY) deltaY
    else optMul ((mapY : ℚ) + 1 - pmy) deltaY
  ddaLoop m deltaX deltaY (stepOf dirX) (stepOf dirY) fuel mapX mapY sdx sdy

/-- Perpendicular wall distance (doom.py lines 1947-1950). -/
def perpDist (pmx pmy dirX dirY : ℚ) (side : Nat) (mapX mapY : Int) : ℚ :=
  if side = 0 then ((mapX : ℚ) - pmx + (1 - (stepOf dirX : ℚ)) / 2) / dirX
  else ((mapY : ℚ) - pmy + (1 - (stepOf dirY : ℚ)) / 2) / dirY

/-- `MAX_DEPTH = 20` (doom.py line 54). -/
def MAX_DEPTH : ℚ := 20

/-- The depth-buffer entry written for one ray: the perpendicular distance on
a hit (line 1953), the `MAX_DEPTH` sentinel otherwise (line 2027).  `none`
only for insufficient fuel. -/
def zEntry (m : List (List Int)) (pmx pmy dirX dirY : ℚ) (fuel : Nat) :
    Option ℚ :=
  match castRayCore m pmx pmy dirX dirY fuel with
  | none => none
  | some none => some MAX_DEPTH
  | some (some (side, mapX, mapY)) =>
    some (perpDist pmx pmy dirX dirY side mapX mapY)

/-- `WALL_STRIP_WIDTH = ceil(800 / 200) = 4` (doom.py line 59). -/
def WALL_STRIP_WIDTH : Nat := 4

/-- The per-column sprite occlusion guard (doom.py lines 2101-2108): screen
column `x` of a sprite at Euclidean distance `spriteDist` (world units) is
drawn only if the corresponding ray exists and
`sprite_dist / TILE_SIZE < z_buffer[ray_idx]`. -/
def spriteColDrawn (zbuf : List ℚ) (spriteDist : ℚ) (x : Nat) : Bool :=
  let rayIdx := x / WALL_STRIP_WIDTH
  decide (rayIdx < zbuf.length ∧ spriteDist / TILE_SIZE < zbuf.getD rayIdx 0)

/-! ## Enemy state machine (doom.py lines 915-1113) -/

inductive EnemyState : Type where
  | patrol | alert | search | attack
  deriving DecidableEq

/-- The fields of `Enemy` read or written by the state machine, alert
propagation, damage handling and path planning.  Rendering-only fields
(sprites, facing angle, type stats) are omitted. -/
structure Enemy where
  x : ℚ
  y : ℚ
  hp : Int
  hit_effect : Int
  state : EnemyState
  state_timer : Nat
  last_player_pos : Option (ℚ × ℚ)
  alert_level : Int
  path : List (ℚ × ℚ)
  path_update_counter : Nat
  current_path_index : Nat
  patrol_points : List (ℚ × ℚ)
  current_patrol_index : Nat
  deriving DecidableEq

/-- `SEARCH_DURATION = 180`, `ALERT_DURATION = 300`,
`COORDINATION_RANGE = 4.0` tiles, `PATH_UPDATE_FREQUENCY = 10`,
`MAX_PATH_LENGTH = 100` (doom.py lines 78-105). -/
def SEARCH_DURATION : Nat := 180

def ALERT_DURATION : Nat := 300

def PATH_UPDATE_FREQUENCY : Nat := 10

def MAX_PATH_LENGTH : Nat := 100

/-- `_alert_nearby_enemies` for one ally (doom.py lines 974-987): promote a
patrolling ally within `COORDINATION_RANGE * TILE_SIZE = 256` world units
directly to ATTACK.  `sqrt(dx^2+dy^2) <= 256` is stated as
`dx^2+dy^2 <= 256^2`. -/
def alertOne (self : Enemy) (player : ℚ × ℚ) (o : Enemy) : Enemy :=
  let dx := o.x - self.x
  let dy := o.y - self.y
  if dx * dx + dy * dy ≤ 256 * 256 then
    if o.state = .patrol then
      { o with state := .attack, state_timer := 0,
               last_player_pos := some player,
               alert_level := min 100 (o.alert_level + 5) }
    else o
  else o

/-- `_alert_nearby_enemies` (doom.py lines 969-987).  The source skips
`enemy == self` by object identity; `others` here is the list of the other
enemies, with `self` already excluded. -/
def alertNearby (self : Enemy) (others : List Enemy) (player : ℚ × ℚ) :
    List Enemy :=
  others.map (alertOne self player)

/-- `_update_state` (doom.py lines 915-967): timer increment, the
sight-driven transitions, then the state-specific block (which observes the
state just written, exactly as the sequential source does). -/
def updateState (e : Enemy) (player : ℚ × ℚ) (playerInSight : Bool)
    (others : List Enemy) : Enemy × List Enemy :=
  let e := { e with state_timer := e.state_timer + 1 }
  let (e, others) :=
    if playerInSight then
      let (e, others) :=
        if e.state = .patrol then
          ({ e with state := .attack, state_timer := 0,
                    last_player_pos := some player },
           alertNearby e others player)
        else if e.state = .search then
          ({ e with state := .attack, state_timer := 0,
                    last_player_pos := some player }, others)
        else (e, others)
      ({ e with last_player_pos := some player,
                alert_level := min 100 (e.alert_level + 2) }, others)
    else
      ({ e with alert_level := max 0 (e.alert_level - 1) }, others)
  let e :=
    match e.state with
    | .patrol => e
    | .alert =>
      if e.state_timer > ALERT_DURATION ∨ ¬ playerInSight then
        match e.last_player_pos with
        | some _ => { e with state := .search, state_timer := 0 }
        | none => { e with state := .patrol, state_timer := 0 }
      else e
    | .search =>
      if playerInSight then { e with state := .attack, state_timer := 0 }
      else if e.state_timer > SEARCH_DURATION then
        { e with state := .patrol, state_timer := 0, last_player_pos := none }
      else e
    | .attack =>
      if ¬ playerInSight then { e with state := .search, state_timer := 0 }
      else e
  (e, others)

/-- `take_damage` (doom.py lines 1103-1113). -/
def takeDamage (e : Enemy) (damage : Int) : Enemy × Bool :=
  let e := { e with hp := e.hp - damage, hit_effect := 5,
                    alert_level := min 100 (e.alert_level + 10) }
  let e :=
    if e.state = .patrol then { e with state := .alert, state_timer := 0 }
    else e
  (e, e.hp ≤ 0)

/-- `_update_pathfinding` (doom.py lines 989-1039).  `patrolOracle` supplies
the outcome of the random `_generate_patrol_route` call in the degenerate
patrol branch (the source draws it from the RNG).  `none` propagates an
exception from `a_star_pathfinding` or a bad patrol index.  Distance tests
`sqrt(s) < c` are stated as `s < c^2`
(`0.8 * TILE_SIZE = 51.2`, `51.2^2 = 2621.44`; `TILE_SIZE^2 = 4096`). -/
def updatePathfinding (m : List (List Int)) (e : Enemy) (player : ℚ × ℚ)
    (patrolOracle : List (ℚ × ℚ)) : Option Enemy :=
  let counter := e.path_update_counter + 1
  if ¬ (counter ≥ PATH_UPDATE_FREQUENCY ∨ e.path = []) then
    some { e with path_update_counter := counter }
  else
    let e := { e with path_update_counter := 0, current_path_index := 0 }
    let truncated : Enemy → Enemy := fun e =>
      if e.path ≠ [] ∧ e.path.length > MAX_PATH_LENGTH then
        { e with path := e.path.take MAX_PATH_LENGTH }
      else e
    match e.state with
    | .patrol =>
      let step : Enemy → Option Enemy := fun e =>
        if e.patrol_points.length ≥ 2 then
          match e.patrol_points.get? e.current_patrol_index with
          | none => none
          | some t =>
            match a_star_pathfinding m e.x e.y t.1 t.2 1000 with
            | none => none
            | some p =>
              let e := { e with path := p }
              let dx := t.1 - e.x
              let dy := t.2 - e.y
              if dx * dx + dy * dy < 2621.44 then
                some { e with current_patrol_index :=
                  (e.current_patrol_index + 1) % e.patrol_points.length }
              else some e
        else
          -- `_generate_patrol_route` outcome supplied by the oracle
          let e := { e with patrol_points := patrolOracle,
                            current_patrol_index := 0 }
          if e.patrol_points.length ≥ 2 then
            match e.patrol_points.get? 0 with
            | none => none
            | some t =>
              match a_star_pathfinding m e.x e.y t.1 t.2 1000 with
              | none => none
              | some p => some { e with path := p }
          else some e
      (step e).map truncated
    | .alert =>
      match a_star_pathfinding m e.x e.y player.1 player.2 1000 with
      | none => none
      | some p => some (truncated { e with path := p })
    | .attack =>
      match a_star_pathfinding m e.x e.y player.1 player.2 1000 with
      | none => none
      | some p => some (truncated { e with path := p })
    | .search =>
      match e.last_player_pos with
      | none => some (truncated e)
      | some lp =>
        match a_star_pathfinding m e.x e.y lp.1 lp.2 1000 with
        | none => none
        | some p =>
          let e := { e with path := p }
          let dx := lp.1 - e.x
          let dy := lp.2 - e.y
          if dx * dx + dy * dy < 4096 then
            some (truncated { e with last_player_pos := none })
          else some (truncated e)

/-! ## Heap membership lemmas: the sift operations only move elements
around, so every element of the resulting heap is an old element or the
newly inserted item. -/

theorem getN_mem {l : List PathNode} {i : Nat} (h : i < l.length) :
    getN l i ∈ l := by
  have hg : l.get? i = some (l.get ⟨i, h⟩) := List.get?_eq_get h
  simp only [getN, List.getD_eq_get?, hg, Option.getD_some]
  exact List.get_mem l i h

theorem mem_siftdownGo {item : PathNode} {sp : Nat} :
    ∀ (fuel : Nat) (heap : List PathNode) (pos : Nat), pos < heap.length →
      ∀ x ∈ siftdownGo item sp fuel heap pos, x ∈ heap ∨ x = item := by
  intro fuel
  induction fuel with
  | zero =>
    intro heap pos _ x hx
    simp only [siftdownGo] at hx
    exact List.mem_or_eq_of_mem_set hx
  | succ n ih =>
    intro heap pos hp x hx
    simp only [siftdownGo] at hx
    by_cases hsp : sp < pos
    · rw [if_pos hsp] at hx
      by_cases hlt : nodeLT item (getN heap ((pos - 1) / 2)) = true
      · rw [if_pos hlt] at hx
        have hdiv : (pos - 1) / 2 < heap.length := by
          have := Nat.div_le_self (pos - 1) 2
          omega
        have hlen : (pos - 1) / 2 < (heap.set pos (getN heap ((pos - 1) / 2))).length := by
          simpa using hdiv
        rcases ih _ _ hlen x hx with h1 | h1
        · rcases List.mem_or_eq_of_mem_set h1 with h2 | h2
          · exact Or.inl h2
          · exact Or.inl (h2 ▸ getN_mem hdiv)
        · exact Or.inr h1
      · rw [if_neg hlt] at hx
        exact List.mem_or_eq_of_mem_set hx
    · rw [if_neg hsp] at hx
      exact List.mem_or_eq_of_mem_set hx

theorem siftupGo_length {item : PathNode} :
    ∀ (fuel : Nat) (heap : List PathNode) (pos : Nat),
      ((siftupGo item fuel heap pos).1).length = heap.length := by
  intro fuel
  induction fuel with
  | zero => intro heap pos; simp [siftupGo]
  | succ n ih =>
    intro heap pos
    simp only [siftupGo]
    by_cases hc : 2 * pos + 1 < heap.length
    · rw [if_pos hc]
      rw [ih]
      simp
    · rw [if_neg hc]
      simp

theorem siftupGo_snd_lt {item : PathNode} :
    ∀ (fuel : Nat) (heap : List PathNode) (pos : Nat), pos < heap.length →
      (siftupGo item fuel heap pos).2 < heap.length := by
  intro fuel
  induction fuel with
  | zero => intro heap pos hp; simpa [siftupGo] using hp
  | succ n ih =>
    intro heap pos hp
    simp only [siftupGo]
    by_cases hc : 2 * pos + 1 < heap.length
    · rw [if_pos hc]
      by_cases hr : 2 * pos + 2 < heap.length ∧
          ¬ nodeLT (getN heap (2 * pos + 1)) (getN heap (2 * pos + 2)) = true
      · rw [if_pos hr]
        have := ih (heap.set pos (getN heap (2 * pos + 2))) (2 * pos + 2)
          (by simpa using hr.1)
        simpa using this
      · rw [if_neg hr]
        have := ih (heap.set pos (getN heap (2 * pos + 1))) (2 * pos + 1)
          (by simpa using hc)
        simpa using this
    · rw [if_neg hc]
      simpa using hp

theorem mem_siftupGo {item : PathNode} :
    ∀ (fuel : Nat) (heap : List PathNode) (pos : Nat), pos < heap.length →
      ∀ x ∈ (siftupGo item fuel heap pos).1, x ∈ heap ∨ x = item := by
  intro fuel
  induction fuel with
  | zero =>
    intro heap pos _ x hx
    simp only [siftupGo] at hx
    exact List.mem_or_eq_of_mem_set hx
  | succ n ih =>
    intro heap pos hp x hx
    simp only [siftupGo] at hx
    by_cases hc : 2 * pos + 1 < heap.length
    · rw [if_pos hc] at hx
      by_cases hr : 2 * pos + 2 < heap.length ∧
          ¬ nodeLT (getN heap (2 * pos + 1)) (getN heap (2 * pos + 2)) = true
      · rw [if_pos hr] at hx
        have hm : 2 * pos + 2 < (heap.set pos (getN heap (2 * pos + 2))).length := by
          simpa using hr.1
        rcases ih _ _ hm x hx with h1 | h1
        · rcases List.mem_or_eq_of_mem_set h1 with h2 | h2
          · exact Or.inl h2
          · exact Or.inl (h2 ▸ getN_mem hr.1)
        · exact Or.inr h1
      · rw [if_neg hr] at hx
        have hm : 2 * pos + 1 < (heap.set pos (getN heap (2 * pos + 1))).length := by
          simpa using hc
        rcases ih _ _ hm x hx with h1 | h1
        · rcases List.mem_or_eq_of_mem_set h1 with h2 | h2
          · exact Or.inl h2
          · exact Or.inl (h2 ▸ getN_mem hc)
        · exact Or.inr h1
    · rw [if_neg hc] at hx
      exact List.mem_or_eq_of_mem_set hx

theorem mem_siftup {heap : List PathNode} {pos : Nat} (hp : pos < heap.length) :
    ∀ x ∈ siftup heap pos, x ∈ heap := by
  intro x hx
  simp only [siftup] at hx
  have hlen := @siftupGo_length (getN heap pos) heap.length heap pos
  have hsnd := @siftupGo_snd_lt (getN heap pos) heap.length heap pos hp
  have hlt : (siftupGo (getN heap pos) heap.length heap pos).2 <
      ((siftupGo (getN heap pos) heap.length heap pos).1).length := by
    rw [hlen]; exact hsnd
  rcases mem_siftdownGo _ _ _ hlt x hx with h1 | h1
  · rcases mem_siftupGo _ _ _ hp x h1 with h2 | h2
    · exact h2
    · exact h2 ▸ getN_mem hp
  · exact h1 ▸ getN_mem hp

theorem mem_heappush {heap : List PathNode} {item : PathNode} :
    ∀ x ∈ heappush heap item, x ∈ heap ∨ x = item := by
  intro x hx
  simp only [heappush] at hx
  have hp : heap.length < (heap ++ [item]).length := by simp
  rcases mem_siftdownGo _ _ _ hp x hx with h1 | h1
  · rcases List.mem_append.mp h1 with h2 | h2
    · exact Or.inl h2
    · exact Or.inr (by simpa using h2)
  · exact Or.inr h1

theorem heappop_mem {heap : List PathNode} {c : PathNode}
    {r : List PathNode} (h : heappop heap = some (c, r)) :
    c ∈ heap ∧ ∀ x ∈ r, x ∈ heap := by
  match heap with
  | [] => simp [heappop] at h
  | a :: t =>
    have hlast : getN (a :: t) t.length ∈ a :: t := getN_mem (by simp)
    have htk : ∀ y ∈ (a :: t).take t.length, y ∈ a :: t := fun y hy =>
      List.mem_of_mem_take hy
    simp only [heappop, List.length_cons, Nat.add_sub_cancel] at h
    split at h
    next he =>
      simp only [Option.some.injEq, Prod.mk.injEq] at h
      obtain ⟨h1, h2⟩ := h
      subst h1
      subst h2
      exact ⟨hlast, by simp⟩
    next he =>
      simp only [Option.some.injEq, Prod.mk.injEq] at h
      obtain ⟨h1, h2⟩ := h
      subst h1
      subst h2
      have hne : (a :: t).take t.length ≠ [] := by
        intro hnil
        exact he (by simp [hnil])
      have hlt : 0 < ((a :: t).take t.length).length := List.length_pos.mpr hne
      refine ⟨htk _ (getN_mem hlt), fun x hx => ?_⟩
      have hlt' : 0 < (((a :: t).take t.length).set 0
          (getN (a :: t) t.length)).length := by simpa using hlt
      have hmem := mem_siftup hlt' x hx
      rcases List.mem_or_eq_of_mem_set hmem with h2 | h2
      · exact htk _ h2
      · exact h2 ▸ hlast

/-! ## Invariants of the A* search tree -/

/-- The property the neighbor filter enforces on one parent-to-child step
from cell `(cx, cy)` to cell `(nx, ny)`: a diagonal step is only created
after both corner-check lookups (doom.py line 270) returned an empty tile. -/
def stepOk (m : List (List Int)) (cx cy nx ny : Int) : Prop :=
  (nx - cx ≠ 0 ∧ ny - cy ≠ 0) →
    (pyGet2 m cy nx = some 0 ∧ pyGet2 m ny cx = some 0)

/-- Every parent edge in a node's ancestry satisfies `stepOk`. -/
def edgesOk (m : List (List Int)) : PathNode → Prop
  | .root _ _ _ _ _ => True
  | .child x y p _ _ _ => stepOk m p.x p.y x y ∧ edgesOk m p

/-- The claim's no-corner-cutting relation on consecutive waypoints: if the
two waypoints are the tile centers of cells one diagonal step apart, then
neither orthogonally adjacent cell is a wall (both lookups yield tile 0). -/
def diagOkWp (m : List (List Int)) (w1 w2 : ℚ × ℚ) : Prop :=
  ∀ c1x c1y c2x c2y : Int,
    w1 = ((c1x : ℚ) * 64 + 32, (c1y : ℚ) * 64 + 32) →
    w2 = ((c2x : ℚ) * 64 + 32, (c2y : ℚ) * 64 + 32) →
    (c2x - c1x ≠ 0 ∧ c2y - c1y ≠ 0) →
    pyGet2 m c1y c2x = some 0 ∧ pyGet2 m c2y c1x = some 0

theorem center_inj {a b : Int} (h : (a : ℚ) * 64 + 32 = (b : ℚ) * 64 + 32) :
    a = b := by
  have h2 : (a : ℚ) = (b : ℚ) := by linarith
  exact_mod_cast h2

theorem walkPath_head (n : PathNode) :
    (walkPath n).head? = some ((n.x : ℚ) * 64 + 32, (n.y : ℚ) * 64 + 32) := by
  cases n <;> rfl

theorem walkPath_centers (n : PathNode) :
    ∀ w ∈ walkPath n, ∃ cx cy : Int,
      w = ((cx : ℚ) * 64 + 32, (cy : ℚ) * 64 + 32) := by
  induction n with
  | root x y g h f =>
    intro w hw
    simp only [walkPath, List.mem_singleton] at hw
    exact ⟨x, y, hw⟩
  | child x y p g h f ih =>
    intro w hw
    simp only [walkPath, List.mem_cons] at hw
    rcases hw with hw | hw
    · exact ⟨x, y, hw⟩
    · exact ih w hw

theorem chain_walk {m : List (List Int)} {n : PathNode} (hn : edgesOk m n) :
    List.Chain' (flip (diagOkWp m)) (walkPath n) := by
  induction n with
  | root x y g h f => simp [walkPath]
  | child x y p g h f ih =>
    obtain ⟨hstep, hp⟩ := hn
    rw [walkPath, List.chain'_cons']
    refine ⟨?_, ih hp⟩
    intro b hb
    rw [walkPath_head] at hb
    simp only [Option.mem_def, Option.some.injEq] at hb
    subst hb
    -- the flipped relation asks `diagOkWp` of (parent center, child center)
    intro c1x c1y c2x c2y h1 h2 hd
    rw [Prod.mk.injEq] at h1 h2
    have e1x : p.x = c1x := center_inj h1.1
    have e1y : p.y = c1y := center_inj h1.2
    have e2x : x = c2x := center_inj h2.1
    have e2y : y = c2y := center_inj h2.2
    subst e1x; subst e1y; subst e2x; subst e2y
    exact hstep hd

theorem expandDirs_good {m : List (List Int)} {W H gx gy : Int}
    {closed : List (Int × Int)} {cur : PathNode} (hcur : edgesOk m cur) :
    ∀ (dirs : List (Int × Int)) (openl : List PathNode) (pushes : Nat)
      (openl' : List PathNode) (pushes' : Nat),
      (∀ n ∈ openl, edgesOk m n) →
      expandDirs m W H gx gy cur closed dirs openl pushes =
        some (openl', pushes') →
      ∀ n ∈ openl', edgesOk m n := by
  intro dirs
  induction dirs with
  | nil =>
    intro openl pushes openl' pushes' hop h
    simp only [expandDirs, Option.some.injEq, Prod.mk.injEq] at h
    exact h.1 ▸ hop
  | cons d rest ih =>
    obtain ⟨dx, dy⟩ := d
    intro openl pushes openl' pushes' hop h
    simp only [expandDirs] at h
    split at h
    · -- neighbor cell valid
      split at h
      · -- diagonal step
        next hdiag =>
        split at h
        · exact absurd h (by simp)
        · next v hv =>
          split at h
          · exact ih _ _ _ _ hop h
          · next hv0 =>
            split at h
            · exact absurd h (by simp)
            · next w hw =>
              split at h
              · exact ih _ _ _ _ hop h
              · next hw0 =>
                have hv0' : v = 0 := by omega
                have hw0' : w = 0 := by omega
                subst hv0'
                subst hw0'
                have hstep : stepOk m cur.x cur.y (cur.x + dx) (cur.y + dy) :=
                  fun _ => ⟨hv, hw⟩
                split at h
                · exact ih _ _ _ _ hop h
                · refine ih _ _ _ _ (fun n hn => ?_) h
                  rcases mem_heappush n hn with h1 | h1
                  · exact hop n h1
                  · subst h1
                    exact ⟨hstep, hcur⟩
      · -- cardinal step: the diagonal antecedent is false
        next hdiag =>
        have hstep : stepOk m cur.x cur.y (cur.x + dx) (cur.y + dy) := by
          intro hd
          exact absurd ⟨by omega, by omega⟩ hdiag
        split at h
        · exact ih _ _ _ _ hop h
        · refine ih _ _ _ _ (fun n hn => ?_) h
          rcases mem_heappush n hn with h1 | h1
          · exact hop n h1
          · subst h1
            exact ⟨hstep, hcur⟩
    · exact ih _ _ _ _ hop h

theorem aStarLoop_sound {m : List (List Int)} {W H gx gy : Int} :
    ∀ (fuel : Nat) (openl : List PathNode) (closed : List (Int × Int))
      (pushes pops : Nat) (r : AStarResult),
      (∀ n ∈ openl, edgesOk m n) →
      aStarLoop m W H gx gy fuel openl closed pushes pops = some r →
      (r.path = [] ∨ ∃ n, edgesOk m n ∧ n.x = gx ∧ n.y = gy ∧
        r.path = (walkPath n).reverse) ∧ r.pops ≤ pops + fuel := by
  intro fuel
  induction fuel with
  | zero =>
    intro openl closed pushes pops r _ h
    simp only [aStarLoop, Option.some.injEq] at h
    subst h
    exact ⟨Or.inl rfl, by simp⟩
  | succ n ihf =>
    intro openl closed pushes pops r hop h
    cases openl with
    | nil =>
      simp only [aStarLoop, Option.some.injEq] at h
      subst h
      exact ⟨Or.inl rfl, by simp⟩
    | cons a t =>
      simp only [aStarLoop] at h
      split at h
      · exact absurd h (by simp)
      · next cur rest hpop =>
        obtain ⟨hcurmem, hrest⟩ := heappop_mem hpop
        split at h
        · next hgoal =>
          simp only [Option.some.injEq] at h
          subst h
          refine ⟨Or.inr ⟨cur, hop _ hcurmem, hgoal.1, hgoal.2, rfl⟩, ?_⟩
          simp only [AStarResult.mk.injEq]
          omega
        · split at h
          · exact absurd h (by simp)
          · next openl' pushes' heq =>
            have hgood := expandDirs_good (hop _ hcurmem) directions rest
              pushes openl' pushes' (fun x hx => hop x (hrest x hx)) heq
            have hres := ihf openl' ((cur.x, cur.y) :: closed) pushes'
              (pops + 1) r hgood h
            exact ⟨hres.1, by omega⟩


/-! ## Claim theorems: A* -/

/-- **C1**: for start and goal world positions whose grid cells are in bounds
(non-negative cell indices, successful map lookups), if the start cell or the
goal cell holds a non-zero tile (a wall), `a_star_pathfinding` returns the
empty path immediately and performs no open-list push or pop. -/
theorem C1_wall_endpoint_no_search (m : List (List Int)) (sx sy gx gy : ℚ)
    (mi : Nat) (sv gv : Int)
    (_hsx : 0 ≤ worldToGrid sx) (_hsy : 0 ≤ worldToGrid sy)
    (_hgx : 0 ≤ worldToGrid gx) (_hgy : 0 ≤ worldToGrid gy)
    (hs : pyGet2 m (worldToGrid sy) (worldToGrid sx) = some sv)
    (hg : pyGet2 m (worldToGrid gy) (worldToGrid gx) = some gv)
    (hwall : sv ≠ 0 ∨ gv ≠ 0) :
    a_star_run m sx sy gx gy mi = some ⟨[], 0, 0⟩ := by
  simp only [a_star_run, hs, hg]
  by_cases h0 : sv = 0
  · have hg0 : gv ≠ 0 := by
      rcases hwall with h | h
      · exact absurd h0 h
      · exact h
    simp [h0, hg0]
  · simp [h0]

/-- Witness for C1: on the game map, start `(1, 1)` lies in wall cell
`(0, 0)`, so the search returns `[]` with zero pushes and pops. -/
theorem C1_wall_endpoint_no_search_witness :
    a_star_run MAP 1 1 96 96 1000 = some ⟨[], 0, 0⟩ :=
  C1_wall_endpoint_no_search MAP 1 1 96 96 1000 1 0
    (by with_unfolding_all decide) (by with_unfolding_all decide)
    (by with_unfolding_all decide) (by with_unfolding_all decide)
    (by with_unfolding_all decide) (by with_unfolding_all decide)
    (Or.inl (by decide))

/-- **C2**: no two consecutive waypoints of any returned path form a diagonal
step with a wall in either orthogonally adjacent cell: every diagonal edge
on the path was admitted only after both corner lookups returned tile 0. -/
theorem C2_no_corner_cutting (m : List (List Int)) (sx sy gx gy : ℚ)
    (mi : Nat) (r : AStarResult)
    (h : a_star_run m sx sy gx gy mi = some r) :
    List.Chain' (diagOkWp m) r.path := by
  simp only [a_star_run] at h
  split at h
  · exact absurd h (by simp)
  · split at h
    · simp only [Option.some.injEq] at h
      subst h
      simp
    · split at h
      · exact absurd h (by simp)
      · split at h
        · simp only [Option.some.injEq] at h
          subst h
          simp
        · have hop : ∀ n ∈ heappush []
              (PathNode.root (worldToGrid sx) (worldToGrid sy) 0
                ((|worldToGrid sx - worldToGrid gx| +
                  |worldToGrid sy - worldToGrid gy| : Int) : ℚ)
                ((|worldToGrid sx - worldToGrid gx| +
                  |worldToGrid sy - worldToGrid gy| : Int) : ℚ)),
              edgesOk m n := by
            intro n hn
            rcases mem_heappush n hn with h1 | h1
            · exact absurd h1 (by simp)
            · subst h1
              trivial
          have hres := aStarLoop_sound mi _ [] 1 0 r hop h
          rcases hres.1 with hp | ⟨n, hn, _, _, hp⟩
          · rw [hp]
            simp
          · rw [hp]
            exact List.chain'_reverse.mpr (chain_walk hn)

/-- Witness for C2: a concrete single-waypoint run on the game map. -/
theorem C2_no_corner_cutting_witness :
    List.Chain' (diagOkWp MAP) ([((96 : ℚ), (96 : ℚ))]) :=
  C2_no_corner_cutting MAP 96 96 96 96 1000 ⟨[(96, 96)], 1, 1⟩
    (by with_unfolding_all decide)

/-- **C3**: the search always terminates with a result; a non-empty path
arises only from popping a node on the goal cell (so its final waypoint is
the goal cell's tile center, produced by walking the parent links and
reversing), and the loop runs at most `max_iterations` iterations (one
`heappop` per iteration). -/
theorem C3_termination_goal_pop (m : List (List Int)) (sx sy gx gy : ℚ)
    (mi : Nat) (r : AStarResult)
    (h : a_star_run m sx sy gx gy mi = some r) :
    (r.path ≠ [] → r.path.getLast? =
      some (((worldToGrid gx : Int) : ℚ) * 64 + 32,
            ((worldToGrid gy : Int) : ℚ) * 64 + 32)) ∧
    r.pops ≤ mi := by
  simp only [a_star_run] at h
  split at h
  · exact absurd h (by simp)
  · split at h
    · simp only [Option.some.injEq] at h
      subst h
      exact ⟨by simp, by simp⟩
    · split at h
      · exact absurd h (by simp)
      · split at h
        · simp only [Option.some.injEq] at h
          subst h
          exact ⟨by simp, by simp⟩
        · have hop : ∀ n ∈ heappush []
              (PathNode.root (worldToGrid sx) (worldToGrid sy) 0
                ((|worldToGrid sx - worldToGrid gx| +
                  |worldToGrid sy - worldToGrid gy| : Int) : ℚ)
                ((|worldToGrid sx - worldToGrid gx| +
                  |worldToGrid sy - worldToGrid gy| : Int) : ℚ)),
              edgesOk m n := by
            intro n hn
            rcases mem_heappush n hn with h1 | h1
            · exact absurd h1 (by simp)
            · subst h1
              trivial
          have hres := aStarLoop_sound mi _ [] 1 0 r hop h
          refine ⟨?_, by simpa using hres.2⟩
          intro hne
          rcases hres.1 with hp | ⟨n, _, hnx, hny, hp⟩
          · exact absurd hp hne
          · rw [hp, List.getLast?_reverse, walkPath_head, hnx, hny]

/-- Witness for C3: a concrete run whose path ends at the goal center and
whose pop count is within the budget. -/
theorem C3_termination_goal_pop_witness :
    (((⟨[((96 : ℚ), (96 : ℚ))], 1, 1⟩ : AStarResult).path ≠ [] →
      (⟨[((96 : ℚ), (96 : ℚ))], 1, 1⟩ : AStarResult).path.getLast? =
        some (((worldToGrid 96 : Int) : ℚ) * 64 + 32,
              ((worldToGrid 96 : Int) : ℚ) * 64 + 32)) ∧
    (⟨[((96 : ℚ), (96 : ℚ))], 1, 1⟩ : AStarResult).pops ≤ 1000) :=
  C3_termination_goal_pop MAP 96 96 96 96 1000 ⟨[(96, 96)], 1, 1⟩
    (by with_unfolding_all decide)


/-- **C4**: every waypoint of a returned path is the world-space center of a
grid tile, and when start and goal lie in the same non-wall cell the
returned path is the single waypoint at that tile's center. -/
theorem C4_waypoints_tile_centers :
    (∀ (m : List (List Int)) (sx sy gx gy : ℚ) (mi : Nat) (r : AStarResult),
      a_star_run m sx sy gx gy mi = some r →
      ∀ w ∈ r.path, ∃ cx cy : Int,
        w = ((cx : ℚ) * 64 + 32, (cy : ℚ) * 64 + 32)) ∧
    (∀ (m : List (List Int)) (sx sy gx gy : ℚ) (mi : Nat), 1 ≤ mi →
      worldToGrid gx = worldToGrid sx → worldToGrid gy = worldToGrid sy →
      pyGet2 m (worldToGrid sy) (worldToGrid sx) = some 0 →
      a_star_pathfinding m sx sy gx gy mi =
        some [(((worldToGrid sx : Int) : ℚ) * 64 + 32,
               ((worldToGrid sy : Int) : ℚ) * 64 + 32)]) := by
  constructor
  · intro m sx sy gx gy mi r h w hw
    simp only [a_star_run] at h
    split at h
    · exact absurd h (by simp)
    · split at h
      · simp only [Option.some.injEq] at h
        subst h
        exact absurd hw (by simp)
      · split at h
        · exact absurd h (by simp)
        · split at h
          · simp only [Option.some.injEq] at h
            subst h
            exact absurd hw (by simp)
          · have hop : ∀ n ∈ heappush []
                (PathNode.root (worldToGrid sx) (worldToGrid sy) 0
                  ((|worldToGrid sx - worldToGrid gx| +
                    |worldToGrid sy - worldToGrid gy| : Int) : ℚ)
                  ((|worldToGrid sx - worldToGrid gx| +
                    |worldToGrid sy - worldToGrid gy| : Int) : ℚ)),
                edgesOk m n := by
              intro n hn
              rcases mem_heappush n hn with h1 | h1
              · exact absurd h1 (by simp)
              · subst h1
                trivial
            have hres := aStarLoop_sound mi _ [] 1 0 r hop h
            rcases hres.1 with hp | ⟨n, _, _, _, hp⟩
            · rw [hp] at hw
              exact absurd hw (by simp)
            · rw [hp] at hw
              exact walkPath_centers n w (List.mem_reverse.mp hw)
  · intro m sx sy gx gy mi hmi hgx hgy hcell
    obtain ⟨k, rfl⟩ : ∃ k, mi = k + 1 := ⟨mi - 1, by omega⟩
    simp only [a_star_pathfinding, a_star_run, hgx, hgy, hcell]
    simp only [heappush, List.nil_append, List.length_nil, siftdownGo,
      List.length_cons, aStarLoop, heappop, getN, List.set]
    simp [PathNode.x, PathNode.y, walkPath]

/-- Witness for C4: start `(100, 100)` and goal `(96, 96)` share the empty
cell `(1, 1)`; the path is that tile's center. -/
theorem C4_waypoints_tile_centers_witness :
    a_star_pathfinding MAP 100 100 96 96 1000 =
      some [(((worldToGrid (100 : ℚ) : Int) : ℚ) * 64 + 32,
             ((worldToGrid (100 : ℚ) : Int) : ℚ) * 64 + 32)] :=
  C4_waypoints_tile_centers.2 MAP 100 100 96 96 1000 (by omega)
    (by with_unfolding_all decide) (by with_unfolding_all decide)
    (by with_unfolding_all decide)

/-- **C9 counterexample**: the pathfinder's world-to-cell map truncates
toward zero, so at the negative world coordinate `-32` it yields cell `0`,
not `floor(-32/64) = -1` as the claim states. -/
theorem C9_floor_counterexample :
    worldToGrid (-32) ≠ ⌊(-32 : ℚ) / TILE_SIZE⌋ := by
  have h1 : worldToGrid (-32) = 0 := by with_unfolding_all decide
  have h2 : ⌊(-32 : ℚ) / TILE_SIZE⌋ = -1 := by
    rw [show (-32 : ℚ) / TILE_SIZE = -(1 / 2) by norm_num [TILE_SIZE]]
    norm_num
  rw [h1, h2]
  decide

/-- **C9 amended**: the pathfinder assigns to world coordinate `w` the cell
`int(w / TILE_SIZE)` (truncation toward zero); this coincides with
`floor(w / TILE_SIZE)` for non-negative `w` (but not for negative `w`). -/
theorem C9_world_to_grid_trunc (w : ℚ) (hw : 0 ≤ w) :
    worldToGrid w = ⌊w / TILE_SIZE⌋ := by
  have h : 0 ≤ w / TILE_SIZE := div_nonneg hw (by norm_num [TILE_SIZE])
  simp [worldToGrid, pyInt, not_lt.mpr h]

/-- Witness for C9 (amended): at world coordinate `100` the cell is
`floor(100/64) = 1`. -/
theorem C9_world_to_grid_trunc_witness :
    worldToGrid 100 = ⌊(100 : ℚ) / TILE_SIZE⌋ :=
  C9_world_to_grid_trunc 100 (by norm_num)

/-- **C10**: the initial wall test indexes the map before any bounds check:
with the start cell at column 32 (one past the right edge) the lookup raises
(`none` in the embedding); with the start cell at column `-31` the lookup
wraps to column 1, whose tile is empty, so instead of treating the
out-of-bounds start as a wall the search actually runs (one push and one
pop before the open list empties). -/
theorem C10_unchecked_endpoint_indexing :
    a_star_run MAP 2048 96 96 96 1000 = none ∧
    a_star_run MAP (-1984) 96 300 96 1000 = some ⟨[], 1, 1⟩ ∧
    worldToGrid (-1984) = -31 ∧
    pyGet2 MAP 1 (-31) = some 0 := by
  refine ⟨?_, ?_, ?_, ?_⟩ <;> with_unfolding_all decide


/-! ## DDA lemmas -/

/-- Marching a ray with an infinite y side distance (axis-parallel ray with
`step_x = 1`): if every cell strictly between the start column and the wall
column is empty and in bounds and the wall cell holds a positive tile, the
DDA stops at that wall cell with an x-side hit. -/
theorem ddaMarchX {m : List (List Int)} {cy : Int}
    (hcy0 : 0 ≤ cy) (hcyH : cy < mapH m) :
    ∀ (stepY : Int) (d : ℚ) (n : Nat) (cx : Int) (s : ℚ) (fuel : Nat),
      n + 1 ≤ fuel →
      (∀ j : Int, cx < j → j < cx + n + 1 →
        0 ≤ j ∧ j < mapW m ∧ mapAt m cy j = 0) →
      0 ≤ cx + n + 1 → cx + n + 1 < mapW m →
      0 < mapAt m cy (cx + n + 1) →
      ddaLoop m (some d) none 1 stepY fuel cx cy (some s) none =
        some (some (0, cx + n + 1, cy)) := by
  intro stepY d n
  induction n with
  | zero =>
    intro cx s fuel hf _ hb0 hbW hwall
    obtain ⟨f, rfl⟩ : ∃ f, fuel = f + 1 := ⟨fuel - 1, by omega⟩
    simp only [Nat.cast_zero, add_zero] at hb0 hbW hwall ⊢
    simp only [ddaLoop, optLT]
    have hcond : 0 ≤ cx + 1 ∧ cx + 1 < mapW m ∧ 0 ≤ cy ∧ cy < mapH m :=
      ⟨hb0, hbW, hcy0, hcyH⟩
    rw [if_pos trivial, if_pos hcond, if_pos hwall]
  | succ n ih =>
    intro cx s fuel hf hcells hb0 hbW hwall
    obtain ⟨f, rfl⟩ : ∃ f, fuel = f + 1 := ⟨fuel - 1, by omega⟩
    have hc1 : 0 ≤ cx + 1 ∧ cx + 1 < mapW m ∧ mapAt m cy (cx + 1) = 0 :=
      hcells (cx + 1) (by omega) (by push_cast; omega)
    simp only [ddaLoop, optLT]
    have hcond : 0 ≤ cx + 1 ∧ cx + 1 < mapW m ∧ 0 ≤ cy ∧ cy < mapH m :=
      ⟨hc1.1, hc1.2.1, hcy0, hcyH⟩
    have hnw : ¬ (0 < mapAt m cy (cx + 1)) := by
      have := hc1.2.2
      omega
    rw [if_pos trivial, if_pos hcond, if_neg hnw]
    simp only [optAdd]
    have hrec := ih (cx + 1) (s + d) f (by omega)
      (fun j hj1 hj2 => hcells j (by omega) (by push_cast at hj2 ⊢; omega))
      (by push_cast at hb0 ⊢; omega) (by push_cast at hbW ⊢; omega)
      (by
        have he : cx + 1 + (n : Int) + 1 = cx + ((n : Nat) + 1 : Int) + 1 := by
          ring
        rw [he]
        exact hwall)
    rw [hrec]
    have he : cx + 1 + (n : Int) + 1 = cx + ((n : Nat) + 1 : Int) + 1 := by
      ring
    rw [he]
    have he2 : cx + ((n : ℤ) + 1) + 1 = cx + (((n : Nat) + 1 : Nat) : Int) + 1 := by
      push_cast
      ring
    rw [he2]

/-- Marching left (`step_x = -1`): if every cell strictly between the wall
column and the start column is empty and in bounds and the wall cell holds a
positive tile, the DDA stops at that wall cell with an x-side hit. -/
theorem ddaMarchXNeg {m : List (List Int)} {cy : Int}
    (hcy0 : 0 ≤ cy) (hcyH : cy < mapH m) :
    ∀ (stepY : Int) (d : ℚ) (n : Nat) (cx : Int) (s : ℚ) (fuel : Nat),
      n + 1 ≤ fuel →
      (∀ j : Int, cx - (n + 1) < j → j < cx →
        0 ≤ j ∧ j < mapW m ∧ mapAt m cy j = 0) →
      0 ≤ cx - (n + 1) → cx - (n + 1) < mapW m →
      0 < mapAt m cy (cx - (n + 1)) →
      ddaLoop m (some d) none (-1) stepY fuel cx cy (some s) none =
        some (some (0, cx - (n + 1), cy)) := by
  intro stepY d n
  induction n with
  | zero =>
    intro cx s fuel hf _ hb0 hbW hwall
    obtain ⟨f, rfl⟩ : ∃ f, fuel = f + 1 := ⟨fuel - 1, by omega⟩
    have he : cx - ((0 : ℕ) + 1 : ℤ) = cx + -1 := by push_cast; ring
    rw [he] at hb0 hbW hwall ⊢
    simp only [ddaLoop, optLT]
    have hcond : 0 ≤ cx + -1 ∧ cx + -1 < mapW m ∧ 0 ≤ cy ∧ cy < mapH m :=
      ⟨hb0, hbW, hcy0, hcyH⟩
    rw [if_pos trivial, if_pos hcond, if_pos hwall]
  | succ n ih =>
    intro cx s fuel hf hcells hb0 hbW hwall
    obtain ⟨f, rfl⟩ : ∃ f, fuel = f + 1 := ⟨fuel - 1, by omega⟩
    have hc1 : 0 ≤ cx - 1 ∧ cx - 1 < mapW m ∧ mapAt m cy (cx - 1) = 0 :=
      hcells (cx - 1) (by push_cast; omega) (by omega)
    simp only [ddaLoop, optLT]
    have hm : cx + (-1 : ℤ) = cx - 1 := by ring
    have hcond : 0 ≤ cx + -1 ∧ cx + -1 < mapW m ∧ 0 ≤ cy ∧ cy < mapH m := by
      have h1 := hc1.1
      have h2 := hc1.2.1
      exact ⟨by omega, by omega, hcy0, hcyH⟩
    have hnw : ¬ (0 < mapAt m cy (cx + -1)) := by
      rw [hm]
      have := hc1.2.2
      omega
    rw [if_pos trivial, if_pos hcond, if_neg hnw]
    simp only [optAdd]
    have hrec := ih (cx - 1) (s + d) f (by omega)
      (fun j hj1 hj2 => hcells j (by push_cast at hj1 ⊢; omega) (by omega))
      (by push_cast at hb0 ⊢; omega) (by push_cast at hbW ⊢; omega)
      (by
        have he : cx - 1 - ((n : ℕ) + 1 : ℤ) =
            cx - (((n + 1 : ℕ)) + 1 : ℤ) := by
          push_cast
          ring
        rw [he]
        exact hwall)
    rw [hm, hrec]
    congr 3
    push_cast
    ring

/-- Marching down (`step_y = 1`) with an infinite x side distance. -/
theorem ddaMarchYPos {m : List (List Int)} {cx : Int}
    (hcx0 : 0 ≤ cx) (hcxW : cx < mapW m) :
    ∀ (stepX : Int) (d : ℚ) (n : Nat) (cy : Int) (s : ℚ) (fuel : Nat),
      n + 1 ≤ fuel →
      (∀ j : Int, cy < j → j < cy + n + 1 →
        0 ≤ j ∧ j < mapH m ∧ mapAt m j cx = 0) →
      0 ≤ cy + n + 1 → cy + n + 1 < mapH m →
      0 < mapAt m (cy + n + 1) cx →
      ddaLoop m none (some d) stepX 1 fuel cx cy none (some s) =
        some (some (1, cx, cy + n + 1)) := by
  intro stepX d n
  induction n with
  | zero =>
    intro cy s fuel hf _ hb0 hbH hwall
    obtain ⟨f, rfl⟩ : ∃ f, fuel = f + 1 := ⟨fuel - 1, by omega⟩
    simp only [Nat.cast_zero, add_zero] at hb0 hbH hwall ⊢
    simp only [ddaLoop, optLT]
    have hcond : 0 ≤ cx ∧ cx < mapW m ∧ 0 ≤ cy + 1 ∧ cy + 1 < mapH m :=
      ⟨hcx0, hcxW, hb0, hbH⟩
    rw [if_neg (by simp), if_pos hcond, if_pos hwall]
  | succ n ih =>
    intro cy s fuel hf hcells hb0 hbH hwall
    obtain ⟨f, rfl⟩ : ∃ f, fuel = f + 1 := ⟨fuel - 1, by omega⟩
    have hc1 : 0 ≤ cy + 1 ∧ cy + 1 < mapH m ∧ mapAt m (cy + 1) cx = 0 :=
      hcells (cy + 1) (by omega) (by push_cast; omega)
    simp only [ddaLoop, optLT]
    have hcond : 0 ≤ cx ∧ cx < mapW m ∧ 0 ≤ cy + 1 ∧ cy + 1 < mapH m :=
      ⟨hcx0, hcxW, hc1.1, hc1.2.1⟩
    have hnw : ¬ (0 < mapAt m (cy + 1) cx) := by
      have := hc1.2.2
      omega
    rw [if_neg (by simp), if_pos hcond, if_neg hnw]
    simp only [optAdd]
    have hrec := ih (cy + 1) (s + d) f (by omega)
      (fun j hj1 hj2 => hcells j (by omega) (by push_cast at hj2 ⊢; omega))
      (by push_cast at hb0 ⊢; omega) (by push_cast at hbH ⊢; omega)
      (by
        have he : cy + 1 + (n : ℤ) + 1 = cy + ((n + 1 : ℕ) : ℤ) + 1 := by
          push_cast
          ring
        rw [he]
        exact hwall)
    rw [hrec]
    congr 3
    push_cast
    ring

/-- Marching up (`step_y = -1`) with an infinite x side distance. -/
theorem ddaMarchYNeg {m : List (List Int)} {cx : Int}
    (hcx0 : 0 ≤ cx) (hcxW : cx < mapW m) :
    ∀ (stepX : Int) (d : ℚ) (n : Nat) (cy : Int) (s : ℚ) (fuel : Nat),
      n + 1 ≤ fuel →
      (∀ j : Int, cy - (n + 1) < j → j < cy →
        0 ≤ j ∧ j < mapH m ∧ mapAt m j cx = 0) →
      0 ≤ cy - (n + 1) → cy - (n + 1) < mapH m →
      0 < mapAt m (cy - (n + 1)) cx →
      ddaLoop m none (some d) stepX (-1) fuel cx cy none (some s) =
        some (some (1, cx, cy - (n + 1))) := by
  intro stepX d n
  induction n with
  | zero =>
    intro cy s fuel hf _ hb0 hbH hwall
    obtain ⟨f, rfl⟩ : ∃ f, fuel = f + 1 := ⟨fuel - 1, by omega⟩
    have he : cy - ((0 : ℕ) + 1 : ℤ) = cy + -1 := by push_cast; ring
    rw [he] at hb0 hbH hwall ⊢
    simp only [ddaLoop, optLT]
    have hcond : 0 ≤ cx ∧ cx < mapW m ∧ 0 ≤ cy + -1 ∧ cy + -1 < mapH m :=
      ⟨hcx0, hcxW, hb0, hbH⟩
    rw [if_neg (by simp), if_pos hcond, if_pos hwall]
  | succ n ih =>
    intro cy s fuel hf hcells hb0 hbH hwall
    obtain ⟨f, rfl⟩ : ∃ f, fuel = f + 1 := ⟨fuel - 1, by omega⟩
    have hc1 : 0 ≤ cy - 1 ∧ cy - 1 < mapH m ∧ mapAt m (cy - 1) cx = 0 :=
      hcells (cy - 1) (by push_cast; omega) (by omega)
    simp only [ddaLoop, optLT]
    have hm : cy + (-1 : ℤ) = cy - 1 := by ring
    have hcond : 0 ≤ cx ∧ cx < mapW m ∧ 0 ≤ cy + -1 ∧ cy + -1 < mapH m := by
      have h1 := hc1.1
      have h2 := hc1.2.1
      exact ⟨hcx0, hcxW, by omega, by omega⟩
    have hnw : ¬ (0 < mapAt m (cy + -1) cx) := by
      rw [hm]
      have := hc1.2.2
      omega
    rw [if_neg (by simp), if_pos hcond, if_neg hnw]
    simp only [optAdd]
    have hrec := ih (cy - 1) (s + d) f (by omega)
      (fun j hj1 hj2 => hcells j (by push_cast at hj1 ⊢; omega) (by omega))
      (by push_cast at hb0 ⊢; omega) (by push_cast at hbH ⊢; omega)
      (by
        have he : cy - 1 - ((n : ℕ) + 1 : ℤ) =
            cy - (((n + 1 : ℕ)) + 1 : ℤ) := by
          push_cast
          ring
        rw [he]
        exact hwall)
    rw [hm, hrec]
    congr 3
    push_cast
    ring

/-- **C5**: on a wall hit the recorded distance is the perpendicular wall
distance computed from the last-stepped axis by the source's formula
(`perpDist`); and for a ray fired parallel to either grid axis, in either
direction, straight at a wall, the recorded distance is the (tile-unit)
distance from the player to the wall's near face - in particular exactly
`N` when the player stands on a grid line `N` tiles from the wall face
(conjuncts 2-5: `+x`, `-x`, `+y`, `-y`). -/
theorem C5_perpendicular_wall_distance :
    (∀ (m : List (List Int)) (pmx pmy dirX dirY : ℚ) (fuel side : Nat)
      (mx my : Int),
      castRayCore m pmx pmy dirX dirY fuel = some (some (side, mx, my)) →
      zEntry m pmx pmy dirX dirY fuel =
        some (perpDist pmx pmy dirX dirY side mx my)) ∧
    (∀ (m : List (List Int)) (pmx pmy : ℚ) (N fuel : Nat), 1 ≤ N → N ≤ fuel →
      0 ≤ pyInt pmy → pyInt pmy < mapH m →
      (∀ j : Int, pyInt pmx < j → j < pyInt pmx + N →
        0 ≤ j ∧ j < mapW m ∧ mapAt m (pyInt pmy) j = 0) →
      0 ≤ pyInt pmx + (N : Int) → pyInt pmx + (N : Int) < mapW m →
      0 < mapAt m (pyInt pmy) (pyInt pmx + (N : Int)) →
      zEntry m pmx pmy 1 0 fuel =
        some (((pyInt pmx : ℚ) + (N : ℚ)) - pmx) ∧
      (pmx = ((pyInt pmx : Int) : ℚ) →
        zEntry m pmx pmy 1 0 fuel = some (N : ℚ))) ∧
    (∀ (m : List (List Int)) (pmx pmy : ℚ) (N fuel : Nat), 1 ≤ N →
      N + 1 ≤ fuel →
      0 ≤ pyInt pmy → pyInt pmy < mapH m →
      (∀ j : Int, pyInt pmx - (N + 1) < j → j < pyInt pmx →
        0 ≤ j ∧ j < mapW m ∧ mapAt m (pyInt pmy) j = 0) →
      0 ≤ pyInt pmx - (N + 1 : Int) → pyInt pmx - (N + 1 : Int) < mapW m →
      0 < mapAt m (pyInt pmy) (pyInt pmx - (N + 1 : Int)) →
      zEntry m pmx pmy (-1) 0 fuel =
        some (pmx - (((pyInt pmx : ℚ) - (N + 1 : ℚ)) + 1)) ∧
      (pmx = ((pyInt pmx : Int) : ℚ) →
        zEntry m pmx pmy (-1) 0 fuel = some (N : ℚ))) ∧
    (∀ (m : List (List Int)) (pmx pmy : ℚ) (N fuel : Nat), 1 ≤ N → N ≤ fuel →
      0 ≤ pyInt pmx → pyInt pmx < mapW m →
      (∀ j : Int, pyInt pmy < j → j < pyInt pmy + N →
        0 ≤ j ∧ j < mapH m ∧ mapAt m j (pyInt pmx) = 0) →
      0 ≤ pyInt pmy + (N : Int) → pyInt pmy + (N : Int) < mapH m →
      0 < mapAt m (pyInt pmy + (N : Int)) (pyInt pmx) →
      zEntry m pmx pmy 0 1 fuel =
        some (((pyInt pmy : ℚ) + (N : ℚ)) - pmy) ∧
      (pmy = ((pyInt pmy : Int) : ℚ) →
        zEntry m pmx pmy 0 1 fuel = some (N : ℚ))) ∧
    (∀ (m : List (List Int)) (pmx pmy : ℚ) (N fuel : Nat), 1 ≤ N →
      N + 1 ≤ fuel →
      0 ≤ pyInt pmx → pyInt pmx < mapW m →
      (∀ j : Int, pyInt pmy - (N + 1) < j → j < pyInt pmy →
        0 ≤ j ∧ j < mapH m ∧ mapAt m j (pyInt pmx) = 0) →
      0 ≤ pyInt pmy - (N + 1 : Int) → pyInt pmy - (N + 1 : Int) < mapH m →
      0 < mapAt m (pyInt pmy - (N + 1 : Int)) (pyInt pmx) →
      zEntry m pmx pmy 0 (-1) fuel =
        some (pmy - (((pyInt pmy : ℚ) - (N + 1 : ℚ)) + 1)) ∧
      (pmy = ((pyInt pmy : Int) : ℚ) →
        zEntry m pmx pmy 0 (-1) fuel = some (N : ℚ))) := by
  refine ⟨?_, ?_, ?_, ?_, ?_⟩
  · intro m pmx pmy dirX dirY fuel side mx my h
    simp only [zEntry, h]
  · intro m pmx pmy N fuel hN hfuel hcy0 hcyH hcells hb0 hbW hwall
    obtain ⟨n, rfl⟩ : ∃ n, N = n + 1 := ⟨N - 1, by omega⟩
    have hb0' : 0 ≤ pyInt pmx + (n : Int) + 1 := by
      push_cast at hb0
      omega
    have hbW' : pyInt pmx + (n : Int) + 1 < mapW m := by
      push_cast at hbW
      omega
    have heq : pyInt pmx + (((n : Nat) + 1 : Nat) : Int) =
        pyInt pmx + (n : Int) + 1 := by
      push_cast
      ring
    have hwall' : 0 < mapAt m (pyInt pmy) (pyInt pmx + (n : Int) + 1) := by
      rw [← heq]
      exact hwall
    have hcore : castRayCore m pmx pmy 1 0 fuel =
        some (some (0, pyInt pmx + (n : Int) + 1, pyInt pmy)) := by
      norm_num [castRayCore, stepOf, optMul]
      exact ddaMarchX hcy0 hcyH 1 1 n (pyInt pmx)
        ((pyInt pmx : ℚ) + 1 - pmx) fuel (by omega)
        (fun j hj1 hj2 => hcells j hj1 (by push_cast at hj2 ⊢; omega))
        hb0' hbW' hwall'
    have hmain : zEntry m pmx pmy 1 0 fuel =
        some (((pyInt pmx : ℚ) + ((n : Nat) + 1 : ℚ)) - pmx) := by
      simp only [zEntry, hcore, perpDist, if_pos rfl, stepOf,
        show (0 : ℚ) ≤ 1 by norm_num, if_true, Option.some.injEq]
      push_cast
      ring
    constructor
    · rw [hmain]
      congr 1
      push_cast
      ring
    · intro hgrid
      rw [hmain, ← hgrid]
      congr 1
      push_cast
      ring
  · intro m pmx pmy N fuel hN hfuel hcy0 hcyH hcells hb0 hbW hwall
    have hcore : castRayCore m pmx pmy (-1) 0 fuel =
        some (some (0, pyInt pmx - ((N : Int) + 1), pyInt pmy)) := by
      norm_num [castRayCore, stepOf, optMul]
      exact ddaMarchXNeg hcy0 hcyH 1 1 N (pyInt pmx)
        (pmx - (pyInt pmx : ℚ)) fuel (by omega)
        (fun j hj1 hj2 => hcells j (by push_cast at hj1 ⊢; omega) hj2)
        hb0 hbW hwall
    have hmain : zEntry m pmx pmy (-1) 0 fuel =
        some (pmx - (((pyInt pmx : ℚ) - ((N : ℚ) + 1)) + 1)) := by
      simp only [zEntry, hcore, perpDist, if_pos rfl, stepOf,
        show ¬ ((0 : ℚ) ≤ -1) by norm_num, if_false, Option.some.injEq]
      push_cast
      ring
    constructor
    · exact hmain
    · intro hgrid
      rw [hmain, ← hgrid]
      congr 1
      push_cast
      ring
  · intro m pmx pmy N fuel hN hfuel hcx0 hcxW hcells hb0 hbH hwall
    obtain ⟨n, rfl⟩ : ∃ n, N = n + 1 := ⟨N - 1, by omega⟩
    have hb0' : 0 ≤ pyInt pmy + (n : Int) + 1 := by
      push_cast at hb0
      omega
    have hbH' : pyInt pmy + (n : Int) + 1 < mapH m := by
      push_cast at hbH
      omega
    have heq : pyInt pmy + (((n : Nat) + 1 : Nat) : Int) =
        pyInt pmy + (n : Int) + 1 := by
      push_cast
      ring
    have hwall' : 0 < mapAt m (pyInt pmy + (n : Int) + 1) (pyInt pmx) := by
      rw [← heq]
      exact hwall
    have hcore : castRayCore m pmx pmy 0 1 fuel =
        some (some (1, pyInt pmx, pyInt pmy + (n : Int) + 1)) := by
      norm_num [castRayCore, stepOf, optMul]
      exact ddaMarchYPos hcx0 hcxW 1 1 n (pyInt pmy)
        ((pyInt pmy : ℚ) + 1 - pmy) fuel (by omega)
        (fun j hj1 hj2 => hcells j hj1 (by push_cast at hj2 ⊢; omega))
        hb0' hbH' hwall'
    have hmain : zEntry m pmx pmy 0 1 fuel =
        some (((pyInt pmy : ℚ) + ((n : Nat) + 1 : ℚ)) - pmy) := by
      simp only [zEntry, hcore, perpDist, stepOf,
        show ¬ ((1 : Nat) = 0) by norm_num, if_false,
        show (0 : ℚ) ≤ 1 by norm_num, if_true, Option.some.injEq]
      push_cast
      ring
    constructor
    · rw [hmain]
      congr 1
      push_cast
      ring
    · intro hgrid
      rw [hmain, ← hgrid]
      congr 1
      push_cast
      ring
  · intro m pmx pmy N fuel hN hfuel hcx0 hcxW hcells hb0 hbH hwall
    have hcore : castRayCore m pmx pmy 0 (-1) fuel =
        some (some (1, pyInt pmx, pyInt pmy - ((N : Int) + 1))) := by
      norm_num [castRayCore, stepOf, optMul]
      exact ddaMarchYNeg hcx0 hcxW 1 1 N (pyInt pmy)
        (pmy - (pyInt pmy : ℚ)) fuel (by omega)
        (fun j hj1 hj2 => hcells j (by push_cast at hj1 ⊢; omega) hj2)
        hb0 hbH hwall
    have hmain : zEntry m pmx pmy 0 (-1) fuel =
        some (pmy - (((pyInt pmy : ℚ) - ((N : ℚ) + 1)) + 1)) := by
      simp only [zEntry, hcore, perpDist, stepOf,
        show ¬ ((1 : Nat) = 0) by norm_num, if_false,
        show ¬ ((0 : ℚ) ≤ -1) by norm_num, Option.some.injEq]
      push_cast
      ring
    constructor
    · exact hmain
    · intro hgrid
      rw [hmain, ← hgrid]
      congr 1
      push_cast
      ring

/-- A three-cell corridor used for the DDA witnesses. -/
def corridorMap : List (List Int) :=
  [[1, 1, 1, 1, 1], [1, 0, 0, 0, 1], [1, 1, 1, 1, 1]]

/-- A vertical three-cell corridor used for the DDA witnesses. -/
def corridorMapV : List (List Int) :=
  [[1, 1, 1], [1, 0, 1], [1, 0, 1], [1, 0, 1], [1, 1, 1]]

/-- Witness for C5: in the corridors, a player on a grid line three tiles
from the wall face records perpendicular distance 3 along each of the four
axis directions. -/
theorem C5_perpendicular_wall_distance_witness :
    zEntry corridorMap 1 (3 / 2) 1 0 20 = some ((3 : ℕ) : ℚ) ∧
    zEntry corridorMap 4 (3 / 2) (-1) 0 20 = some ((3 : ℕ) : ℚ) ∧
    zEntry corridorMapV (3 / 2) 1 0 1 20 = some ((3 : ℕ) : ℚ) ∧
    zEntry corridorMapV (3 / 2) 4 0 (-1) 20 = some ((3 : ℕ) : ℚ) := by
  refine ⟨?_, ?_, ?_, ?_⟩
  · exact (C5_perpendicular_wall_distance.2.1 corridorMap 1 (3 / 2) 3 20
      (by omega) (by omega) (by with_unfolding_all decide)
      (by with_unfolding_all decide)
      (by
        intro j hj1 hj2
        have h1 : pyInt (1 : ℚ) = 1 := by with_unfolding_all decide
        rw [h1] at hj1 hj2
        have : j = 2 ∨ j = 3 := by omega
        rcases this with rfl | rfl <;> with_unfolding_all decide)
      (by with_unfolding_all decide) (by with_unfolding_all decide)
      (by with_unfolding_all decide)).2 (by with_unfolding_all decide)
  · exact (C5_perpendicular_wall_distance.2.2.1 corridorMap 4 (3 / 2) 3 20
      (by omega) (by omega) (by with_unfolding_all decide)
      (by with_unfolding_all decide)
      (by
        intro j hj1 hj2
        have h1 : pyInt (4 : ℚ) = 4 := by with_unfolding_all decide
        rw [h1] at hj1 hj2
        have : j = 1 ∨ j = 2 ∨ j = 3 := by omega
        rcases this with rfl | rfl | rfl <;> with_unfolding_all decide)
      (by with_unfolding_all decide) (by with_unfolding_all decide)
      (by with_unfolding_all decide)).2 (by with_unfolding_all decide)
  · exact (C5_perpendicular_wall_distance.2.2.2.1 corridorMapV (3 / 2) 1 3 20
      (by omega) (by omega) (by with_unfolding_all decide)
      (by with_unfolding_all decide)
      (by
        intro j hj1 hj2
        have h1 : pyInt (1 : ℚ) = 1 := by with_unfolding_all decide
        rw [h1] at hj1 hj2
        have : j = 2 ∨ j = 3 := by omega
        rcases this with rfl | rfl <;> with_unfolding_all decide)
      (by with_unfolding_all decide) (by with_unfolding_all decide)
      (by with_unfolding_all decide)).2 (by with_unfolding_all decide)
  · exact (C5_perpendicular_wall_distance.2.2.2.2 corridorMapV (3 / 2) 4 3 20
      (by omega) (by omega) (by with_unfolding_all decide)
      (by with_unfolding_all decide)
      (by
        intro j hj1 hj2
        have h1 : pyInt (4 : ℚ) = 4 := by with_unfolding_all decide
        rw [h1] at hj1 hj2
        have : j = 1 ∨ j = 2 ∨ j = 3 := by omega
        rcases this with rfl | rfl | rfl <;> with_unfolding_all decide)
      (by with_unfolding_all decide) (by with_unfolding_all decide)
      (by with_unfolding_all decide)).2 (by with_unfolding_all decide)

/-- **C6**: a sprite pixel column is never drawn when the sprite's distance
in tile units is not strictly below the depth-buffer entry of its ray, and a
ray whose DDA march exits the map without a hit stores the `MAX_DEPTH`
sentinel in the depth buffer. -/
theorem C6_depth_buffer_occlusion :
    (∀ (zbuf : List ℚ) (spriteDist : ℚ) (x : Nat),
      ¬ (spriteDist / TILE_SIZE < zbuf.getD (x / WALL_STRIP_WIDTH) 0) →
      spriteColDrawn zbuf spriteDist x = false) ∧
    (∀ (m : List (List Int)) (pmx pmy dirX dirY : ℚ) (fuel : Nat),
      castRayCore m pmx pmy dirX dirY fuel = some none →
      zEntry m pmx pmy dirX dirY fuel = some MAX_DEPTH) := by
  constructor
  · intro zbuf spriteDist x h
    apply decide_eq_false
    intro hcon
    exact h hcon.2
  · intro m pmx pmy dirX dirY fuel h
    simp only [zEntry, h]

/-- Witness for C6: a sprite five tiles out is not drawn over a wall at five
tiles (`5 < 5` fails), and in a single-cell open map an axis ray exits
without a hit and stores `MAX_DEPTH = 20`. -/
theorem C6_depth_buffer_occlusion_witness :
    spriteColDrawn [5] 320 0 = false ∧
    zEntry [[0]] (1 / 2) (1 / 2) 1 0 20 = some MAX_DEPTH :=
  ⟨C6_depth_buffer_occlusion.1 [5] 320 0 (by with_unfolding_all decide),
   C6_depth_buffer_occlusion.2 [[0]] (1 / 2) (1 / 2) 1 0 20
     (by with_unfolding_all decide)⟩


/-! ## Claim theorems: enemy state machine -/

/-- A concrete searching enemy for the C7 counterexample: in SEARCH with a
last-known position one tile away and a fresh timer. -/
def searchEnemy : Enemy where
  x := 96
  y := 96
  hp := 3
  hit_effect := 0
  state := EnemyState.search
  state_timer := 0
  last_player_pos := some (100, 96)
  alert_level := 0
  path := []
  path_update_counter := 0
  current_path_index := 0
  patrol_points := []
  current_patrol_index := 0

/-- **C7 counterexample**: an agent in SEARCH without line of sight and far
below the search timeout (timer 1 after the update) still loses its
last-known player position in the same tick: `_update_pathfinding` clears it
as soon as the agent is within one tile of it, with the state still SEARCH.
This refutes "retains the last-known player position unchanged until either
line-of-sight is reacquired or the search-duration timeout elapses". -/
theorem C7_retention_counterexample :
    ((updateState searchEnemy (300, 300) false []).1).state =
      EnemyState.search ∧
    ((updateState searchEnemy (300, 300) false []).1).state_timer = 1 ∧
    ((updateState searchEnemy (300, 300) false []).1).last_player_pos =
      some (100, 96) ∧
    (updatePathfinding MAP ((updateState searchEnemy (300, 300) false []).1)
        (300, 300) []).map (fun e => (e.state, e.last_player_pos)) =
      some (EnemyState.search, none) := by
  with_unfolding_all decide

/-- **C7 amended**: PATROL with sight becomes ATTACK on the next update;
ATTACK without sight becomes SEARCH keeping the last-known position; SEARCH
without sight keeps state and position until the timeout, then reverts to
PATROL clearing the position - except that on a re-planning tick
`_update_pathfinding` clears the position (while staying in SEARCH) as soon
as the agent is within one tile of it. -/
theorem C7_search_state_machine :
    (∀ (e : Enemy) (p : ℚ × ℚ) (others : List Enemy),
      e.state = EnemyState.patrol →
      ((updateState e p true others).1).state = EnemyState.attack) ∧
    (∀ (e : Enemy) (p : ℚ × ℚ) (others : List Enemy),
      e.state = EnemyState.attack →
      ((updateState e p false others).1).state = EnemyState.search ∧
      ((updateState e p false others).1).last_player_pos =
        e.last_player_pos) ∧
    (∀ (e : Enemy) (p : ℚ × ℚ) (others : List Enemy),
      e.state = EnemyState.search → e.state_timer + 1 ≤ SEARCH_DURATION →
      ((updateState e p false others).1).state = EnemyState.search ∧
      ((updateState e p false others).1).last_player_pos =
        e.last_player_pos) ∧
    (∀ (e : Enemy) (p : ℚ × ℚ) (others : List Enemy),
      e.state = EnemyState.search → SEARCH_DURATION < e.state_timer + 1 →
      ((updateState e p false others).1).state = EnemyState.patrol ∧
      ((updateState e p false others).1).last_player_pos = none) ∧
    (∀ (m : List (List Int)) (e : Enemy) (p : ℚ × ℚ)
      (orc : List (ℚ × ℚ)) (e' : Enemy) (lp : ℚ × ℚ),
      updatePathfinding m e p orc = some e' →
      e.state = EnemyState.search → e.last_player_pos = some lp →
      ((¬ (e.path_update_counter + 1 ≥ PATH_UPDATE_FREQUENCY ∨
          e.path = [])) → e'.last_player_pos = some lp) ∧
      ((e.path_update_counter + 1 ≥ PATH_UPDATE_FREQUENCY ∨ e.path = []) →
        (lp.1 - e.x) * (lp.1 - e.x) + (lp.2 - e.y) * (lp.2 - e.y) < 4096 →
        e'.last_player_pos = none) ∧
      ((e.path_update_counter + 1 ≥ PATH_UPDATE_FREQUENCY ∨ e.path = []) →
        ¬ ((lp.1 - e.x) * (lp.1 - e.x) + (lp.2 - e.y) * (lp.2 - e.y) <
          4096) →
        e'.last_player_pos = some lp)) := by
  refine ⟨?_, ?_, ?_, ?_, ?_⟩
  · intro e p others hs
    simp [updateState, hs]
  · intro e p others hs
    simp [updateState, hs]
  · intro e p others hs ht
    have hnt : ¬ (e.state_timer + 1 > SEARCH_DURATION) := by omega
    simp [updateState, hs, hnt]
  · intro e p others hs ht
    have hnt : e.state_timer + 1 > SEARCH_DURATION := by omega
    simp [updateState, hs, hnt]
  · intro m e p orc e' lp h hs hlp
    simp only [updatePathfinding] at h
    split at h
    · next hno =>
      simp only [Option.some.injEq] at h
      subst h
      refine ⟨fun _ => hlp, fun hrep _ => ?_, fun hrep _ => ?_⟩
      · exact absurd hrep hno
      · exact absurd hrep hno
    · next hrep =>
      rw [not_not] at hrep
      simp only [hs, hlp] at h
      split at h
      · exact absurd h (by simp)
      · next path heq =>
        split at h
        · next hclose =>
          simp only [Option.some.injEq] at h
          subst h
          refine ⟨fun hno => absurd hrep hno, fun _ _ => ?_, fun _ hfar => ?_⟩
          · split <;> rfl
          · exact absurd hclose hfar
        · next hfar =>
          simp only [Option.some.injEq] at h
          subst h
          refine ⟨fun hno => absurd hrep hno, fun _ hclose => ?_,
            fun _ _ => ?_⟩
          · exact absurd hclose hfar
          · split <;> rfl

/-- Witness for C7 (amended): the transition lemmas applied to the concrete
searching enemy: one update without sight keeps SEARCH and the last-known
position. -/
theorem C7_search_state_machine_witness :
    ((updateState searchEnemy (300, 300) false []).1).state =
      EnemyState.search ∧
    ((updateState searchEnemy (300, 300) false []).1).last_player_pos =
      searchEnemy.last_player_pos :=
  C7_search_state_machine.2.2.1 searchEnemy (300, 300) [] (by decide)
    (by decide)


/-- A concrete patrolling enemy for the C8 counterexample. -/
def patrolEnemy : Enemy where
  x := 96
  y := 96
  hp := 3
  hit_effect := 0
  state := EnemyState.patrol
  state_timer := 0
  last_player_pos := none
  alert_level := 0
  path := []
  path_update_counter := 0
  current_path_index := 0
  patrol_points := []
  current_patrol_index := 0

/-- A concrete searching ally one tile from `patrolEnemy` (inside the
coordination radius) for the C8 counterexample. -/
def searchAlly : Enemy where
  x := 160
  y := 96
  hp := 3
  hit_effect := 0
  state := EnemyState.search
  state_timer := 0
  last_player_pos := none
  alert_level := 0
  path := []
  path_update_counter := 0
  current_path_index := 0
  patrol_points := []
  current_patrol_index := 0

/-- **C8 counterexample**: taking damage moves a patrolling agent into ALERT
(so ALERT is reachable without any ally-alert propagation), and alert
propagation leaves a SEARCH ally inside the coordination radius unchanged
(so propagation does not promote *every* ally within the radius to ATTACK).
Both conjuncts of the claim fail. -/
theorem C8_alert_counterexample :
    ((takeDamage patrolEnemy 1).1).state = EnemyState.alert ∧
    (alertOne patrolEnemy (300, 300) searchAlly).state =
      EnemyState.search := by
  with_unfolding_all decide

/-- **C8 amended**: ALERT is entered only by `take_damage` on a patrolling
agent - the state update and the ally-alert propagation never produce ALERT
and path planning never changes the state - and alert propagation promotes
every ally inside the coordination radius that is in PATROL directly to
ATTACK, seeding the player's position as its last-known position, while
leaving every other ally (not in PATROL, or outside the radius)
unchanged. -/
theorem C8_alert_only_via_damage :
    (∀ (e : Enemy) (p : ℚ × ℚ) (s : Bool) (others : List Enemy),
      ((updateState e p s others).1).state = EnemyState.alert →
      e.state = EnemyState.alert) ∧
    (∀ (self : Enemy) (p : ℚ × ℚ) (o : Enemy),
      (alertOne self p o).state = EnemyState.alert →
      o.state = EnemyState.alert) ∧
    (∀ (e : Enemy) (p : ℚ × ℚ) (s : Bool) (others : List Enemy)
      (o' : Enemy), o' ∈ (updateState e p s others).2 →
      o'.state = EnemyState.alert →
      ∃ o ∈ others, o.state = EnemyState.alert) ∧
    (∀ (e : Enemy) (dmg : Int),
      ((takeDamage e dmg).1).state = EnemyState.alert →
      e.state = EnemyState.patrol ∨ e.state = EnemyState.alert) ∧
    (∀ (e : Enemy) (dmg : Int), e.state = EnemyState.patrol →
      ((takeDamage e dmg).1).state = EnemyState.alert) ∧
    (∀ (self : Enemy) (p : ℚ × ℚ) (o : Enemy),
      o.state = EnemyState.patrol →
      (o.x - self.x) * (o.x - self.x) + (o.y - self.y) * (o.y - self.y) ≤
        256 * 256 →
      (alertOne self p o).state = EnemyState.attack ∧
      (alertOne self p o).last_player_pos = some p) ∧
    (∀ (self : Enemy) (p : ℚ × ℚ) (o : Enemy),
      o.state ≠ EnemyState.patrol → alertOne self p o = o) ∧
    (∀ (self : Enemy) (p : ℚ × ℚ) (o : Enemy),
      ¬ ((o.x - self.x) * (o.x - self.x) + (o.y - self.y) * (o.y - self.y) ≤
        256 * 256) → alertOne self p o = o) ∧
    (∀ (m : List (List Int)) (e : Enemy) (p : ℚ × ℚ)
      (orc : List (ℚ × ℚ)) (e' : Enemy),
      updatePathfinding m e p orc = some e' → e'.state = e.state) := by
  refine ⟨?_, ?_, ?_, ?_, ?_, ?_, ?_, ?_, ?_⟩
  · intro e p s others h
    cases hs : e.state
    case alert => rfl
    all_goals
      cases s <;> simp [updateState, hs] at h <;> split_ifs at h <;>
        simp_all
  · intro self p o h
    cases hs : o.state
    case alert => rfl
    all_goals
      simp only [alertOne, hs] at h
      split_ifs at h <;> simp_all
  · intro e p s others o' hmem halert
    cases hs : e.state <;> cases s
    case patrol.true =>
      simp [updateState, hs, alertNearby, List.mem_map] at hmem
      obtain ⟨o, ho, rfl⟩ := hmem
      refine ⟨o, ho, ?_⟩
      revert halert
      simp only [alertOne]
      split_ifs <;> simp_all
    all_goals
      simp [updateState, hs] at hmem
      exact ⟨o', hmem, halert⟩
  · intro e dmg h
    cases hs : e.state
    case patrol => exact Or.inl rfl
    case alert => exact Or.inr rfl
    all_goals
      simp [takeDamage, hs] at h
  · intro e dmg hs
    simp [takeDamage, hs]
  · intro self p o hs hd
    simp [alertOne, hs, hd]
  · intro self p o hnp
    simp [alertOne, hnp]
  · intro self p o hfar
    simp only [alertOne]
    rw [if_neg hfar]
  · intro m e p orc e' h
    simp only [updatePathfinding] at h
    split at h
    · simp only [Option.some.injEq] at h
      subst h
      rfl
    · split at h
      case h_1 =>
        -- PATROL branch
        simp only [Option.map_eq_some'] at h
        obtain ⟨a, ha, rfl⟩ := h
        have hstate : a.state = e.state := by
          split at ha
          · split at ha
            · exact absurd ha (by simp)
            · split at ha
              · exact absurd ha (by simp)
              · split at ha <;>
                  (simp only [Option.some.injEq] at ha; subst ha; rfl)
          · split at ha
            · split at ha
              · exact absurd ha (by simp)
              · split at ha
                · exact absurd ha (by simp)
                · simp only [Option.some.injEq] at ha
                  subst ha
                  rfl
            · simp only [Option.some.injEq] at ha
              subst ha
              rfl
        rw [← hstate]
        split <;> rfl
      case h_2 =>
        split at h
        · exact absurd h (by simp)
        · simp only [Option.some.injEq] at h
          subst h
          split <;> rfl
      case h_3 =>
        split at h
        · exact absurd h (by simp)
        · simp only [Option.some.injEq] at h
          subst h
          split <;> rfl
      case h_4 =>
        split at h
        · simp only [Option.some.injEq] at h
          subst h
          split <;> rfl
        · split at h
          · exact absurd h (by simp)
          · split at h <;>
              (simp only [Option.some.injEq] at h; subst h; split <;> rfl)

/-- Witness for C8 (amended): the propagation lemma applied to a concrete
patrolling ally inside the radius, and `take_damage` on a patrolling
agent. -/
theorem C8_alert_only_via_damage_witness :
    ((alertOne searchAlly (300, 300) patrolEnemy).state =
        EnemyState.attack ∧
      (alertOne searchAlly (300, 300) patrolEnemy).last_player_pos =
        some (300, 300)) ∧
    ((takeDamage patrolEnemy 2).1).state = EnemyState.alert :=
  ⟨C8_alert_only_via_damage.2.2.2.2.2.1 searchAlly (300, 300) patrolEnemy
      (by decide) (by with_unfolding_all decide),
   C8_alert_only_via_damage.2.2.2.2.1 patrolEnemy 2 (by decide)⟩

end Doom
